import Mathlib

/-
Verification of the COBRAme data-to-reaction assembly and update engine.

The repository documents (in its notebooks) the behavior of the reaction
compiler: ProcessData records (StoichiometricData, TranscriptionData,
TranslationData, SubreactionData) are compiled into reaction participant
maps by an explicit `update` operation.  The compiled core itself
(cobrame/core) is not part of the shipped sources, so the definitions
below are modelled from the specification and from the concrete
input/output pairs recorded in docs/Reaction_Manipulation.ipynb.

Conventions of the embedding:
- python floats are modelled as rationals;
- a coupling coefficient, an expression a + b*mu in the growth rate mu,
  is modelled as the pair (a, b) of rationals;
- python dicts keyed by metabolite id are modelled as association lists
  List (String * value) merged with `addTo` so that repeated keys
  accumulate, as dict arithmetic does in the compiler;
- nucleotide sequences are modelled as List Char.
-/

set_option maxHeartbeats 1000000

namespace Cobrame

/-- Modelled from the spec: a symbolic coupling coefficient, an affine
expression `c + m * mu` in the growth rate mu, is represented as the pair
(constant part, mu part) of rationals. -/
abbrev Coeff : Type := ℚ × ℚ

/-- The constant coefficient `q` (no mu dependence). -/
def Coeff.const (q : ℚ) : Coeff := (q, 0)

/-- Modelled from the spec: the mu-dependent dilution coupling `mu / keff`
attached to a catalyzing machine.  The recorded notebook coefficients
(e.g. keff = 65 giving 4.27350427350427e-6 * mu) show the implementation
converts keff from 1/s to 1/hr, hence the factor 3600. -/
def dilutionCoeff (keff : ℚ) : Coeff := (0, 1 / (keff * 3600))

/-- Scale a coefficient by a rational. -/
def scaleCoeff (q : ℚ) (x : Coeff) : Coeff := (q * x.1, q * x.2)

/-- First matching value in an association list. -/
def lookupTable {α : Type} (tbl : List (String × α)) (k : String) : Option α :=
  match tbl with
  | [] => none
  | (k0, v) :: rest => if k0 = k then some v else lookupTable rest k

/-- Add `v` onto the entry of `l` at key `k`, appending a fresh entry when
the key is absent.  This models `dict[key] += value` on a defaultdict. -/
def addTo {α : Type} [Add α] (l : List (String × α)) (k : String) (v : α) :
    List (String × α) :=
  match l with
  | [] => [(k, v)]
  | (k0, v0) :: rest =>
      if k0 = k then (k0, v0 + v) :: rest else (k0, v0) :: addTo rest k v

/-- Merge a list of (key, value) contributions into an accumulated map,
left to right, as the compiler accumulates dict entries. -/
def buildMap {α : Type} [Add α] (es : List (String × α)) : List (String × α) :=
  es.foldl (fun acc kv => addTo acc kv.1 kv.2) []

/-- Coefficient stored at key `k` (zero when the key is absent). -/
def getCoeff {α : Type} [Zero α] (l : List (String × α)) (k : String) : α :=
  match lookupTable l k with
  | some v => v
  | none => 0

/-- Sum of the contributions at key `k` in an unmerged entry list. -/
def sumAt {α : Type} [Zero α] [Add α] (es : List (String × α)) (k : String) : α :=
  match es with
  | [] => 0
  | (k0, v) :: rest => (if k0 = k then v else 0) + sumAt rest k

/-- Keys of a participant map. -/
def keysOf {α : Type} (l : List (String × α)) : List String := l.map Prod.fst

/-- Sum of all stored values of a counter map. -/
def sumValues {α : Type} [AddCommMonoid α] (l : List (String × α)) : α :=
  (l.map Prod.snd).sum

/-! ## StoichiometricData and MetabolicReaction -/

/-- Modelled from the spec: a StoichiometricData record holds the signed
metabolite stoichiometry of a metabolic reaction together with its flux
bounds; it is shared by every MetabolicReaction instance built from it. -/
structure StoichiometricData where
  id : String
  stoichiometry : List (String × ℚ)
  lower_bound : ℚ
  upper_bound : ℚ
deriving DecidableEq, Repr

/-- Replace the lower flux bound of a shared StoichiometricData record. -/
def StoichiometricData.setLowerBound (d : StoichiometricData) (x : ℚ) :
    StoichiometricData :=
  { d with lower_bound := x }

/-- Modelled from the spec: a MetabolicReaction instance.  It references
one StoichiometricData record, names its catalyzing complex, carries its
own keff and direction flag, and stores the compiled participant map and
flux bounds produced by the latest `update`. -/
structure MetabolicReaction where
  id : String
  stoichiometric_data : StoichiometricData
  complex_data_id : String
  keff : ℚ
  reverse : Bool
  participants : List (String × Coeff)
  lower_bound : ℚ
  upper_bound : ℚ
deriving DecidableEq, Repr

/-- Sign applied to the copied stoichiometry: reverse instances negate
every coefficient. -/
def directionSign (reverse : Bool) : ℚ := if reverse then -1 else 1

/-- Modelled from the spec: the raw participant contributions of a
MetabolicReaction — the StoichiometricData stoichiometry with the
direction sign applied, plus the coupling term `mu/keff` on the
catalyzing complex. -/
def metabolicEntries (r : MetabolicReaction) : List (String × Coeff) :=
  (r.stoichiometric_data.stoichiometry.map
    (fun p => (p.1, Coeff.const (directionSign r.reverse * p.2))))
  ++ [(r.complex_data_id, dilutionCoeff r.keff)]

/-- Modelled from the spec: the flux bounds of an instance are clamped to
the feasible half of the StoichiometricData bounds given the direction;
e.g. a reverse instance gets upper bound max(0, -lower_bound). -/
def clampedBounds (d : StoichiometricData) (reverse : Bool) : ℚ × ℚ :=
  if reverse then (max 0 (-d.upper_bound), max 0 (-d.lower_bound))
  else (max 0 d.lower_bound, max 0 d.upper_bound)

/-- Modelled from the spec: `update` rereads the linked StoichiometricData
and the instance attributes and overwrites the compiled participant map
and bounds in one step. -/
def MetabolicReaction.update (r : MetabolicReaction) : MetabolicReaction :=
  { r with
    participants := buildMap (metabolicEntries r)
    lower_bound := (clampedBounds r.stoichiometric_data r.reverse).1
    upper_bound := (clampedBounds r.stoichiometric_data r.reverse).2 }

/-- A direct (illegitimate) edit of the compiled fields of a reaction:
participants and bounds are instance state that `update` recomputes. -/
def MetabolicReaction.setCompiled (r : MetabolicReaction)
    (p : List (String × Coeff)) (lb ub : ℚ) : MetabolicReaction :=
  { r with participants := p, lower_bound := lb, upper_bound := ub }

/-- Replace the instance-owned keff of a MetabolicReaction. -/
def MetabolicReaction.setKeff (r : MetabolicReaction) (k : ℚ) :
    MetabolicReaction :=
  { r with keff := k }

/-- Update every reaction of a dependent set in one pass. -/
def updateAll (rs : List MetabolicReaction) : List MetabolicReaction :=
  rs.map MetabolicReaction.update

/-! ## Transcription -/

/-- Modelled from the spec: a TranscribedGene (RNA) metabolite carries its
RNA type and its own nucleotide sequence (stored as DNA, over A,C,G,T). -/
structure TranscribedGene where
  id : String
  RNA_type : String
  nucleotide_sequence : List Char
deriving DecidableEq, Repr

/-- Modelled from the spec: a SubreactionData record maps metabolites to
signed coefficients and optionally names a catalyzing enzyme with a keff. -/
structure SubreactionData where
  id : String
  stoichiometry : List (String × ℚ)
  enzyme : Option String
  keff : ℚ
deriving DecidableEq, Repr

/-- Modelled from the spec: a TranscriptionData record holds the
transcription-unit sequence, the ids of its RNA products, the catalyzing
RNA polymerase, the rho-dependence flag and a subreaction-count mapping. -/
structure TranscriptionData where
  id : String
  nucleotide_sequence : List Char
  RNA_products : List String
  RNA_polymerase : String
  rho_dependent : Bool
  subreactions : List (String × ℕ)
deriving DecidableEq, Repr

/-- Modelled from the spec: fixed biological constants of the symbolic
coefficient engine — the RNA-polymerase coupling coefficient as a function
of transcript length, and the nucleotide-monophosphate residue masses
(kDa) used to derive RNA molecular weights from sequence composition. -/
structure Consts where
  rnapCoupling : ℕ → Coeff
  wA : ℚ
  wC : ℚ
  wG : ℚ
  wU : ℚ

/-- Occurrences of base `c` in a sequence. -/
def countBase (c : Char) (s : List Char) : ℕ := s.count c

/-- Occurrences of uracil, counting the DNA thymine as its transcript. -/
def countU (s : List Char) : ℕ := countBase 'U' s + countBase 'T' s

/-- Modelled from the spec: RNA molecular weight derived from the length
and base composition of the sequence of the gene itself. -/
def rnaWeight (C : Consts) (g : TranscribedGene) : ℚ :=
  C.wA * countBase 'A' g.nucleotide_sequence
    + C.wC * countBase 'C' g.nucleotide_sequence
    + C.wG * countBase 'G' g.nucleotide_sequence
    + C.wU * countU g.nucleotide_sequence

/-- RNA type of a product id under a metabolite table. -/
def typeOf (genes : List (String × TranscribedGene)) (p : String) :
    Option String :=
  (lookupTable genes p).map TranscribedGene.RNA_type

/-- Modelled from the spec: raw NTP consumption of transcription — one
triphosphate per base of the full transcript. -/
def ntpEntries (seq : List Char) : List (String × Coeff) :=
  [("atp_c", Coeff.const (-(countBase 'A' seq : ℚ))),
   ("ctp_c", Coeff.const (-(countBase 'C' seq : ℚ))),
   ("gtp_c", Coeff.const (-(countBase 'G' seq : ℚ))),
   ("utp_c", Coeff.const (-(countU seq : ℚ)))]

/-- Modelled from the spec: the contribution of one subreaction — its
metabolite map scaled by the declared count, plus a mu-dependent dilution
term on its catalyzing enzyme when it has one. -/
def subreactionEntriesOne (subs : List (String × SubreactionData))
    (sn : String × ℕ) : List (String × Coeff) :=
  match lookupTable subs sn.1 with
  | none => []
  | some sd =>
      sd.stoichiometry.map (fun p => (p.1, Coeff.const ((sn.2 : ℚ) * p.2)))
      ++ (match sd.enzyme with
          | none => []
          | some e => [(e, scaleCoeff (sn.2 : ℚ) (dilutionCoeff sd.keff))])

/-- Contributions of the whole subreaction-count mapping. -/
def subreactionEntries (subs : List (String × SubreactionData))
    (l : List (String × ℕ)) : List (String × Coeff) :=
  (l.map (subreactionEntriesOne subs)).flatten

/-- Tally of excised nucleotide monophosphates by base. -/
structure BaseTally where
  a : ℕ
  c : ℕ
  g : ℕ
  u : ℕ
deriving DecidableEq, Repr

/-- Total number of excised bases in a tally. -/
def BaseTally.total (t : BaseTally) : ℕ := t.a + t.c + t.g + t.u

/-- Add the base composition of one gene sequence to a tally. -/
def BaseTally.addSeq (t : BaseTally) (s : List Char) : BaseTally :=
  { a := t.a + countBase 'A' s
    c := t.c + countBase 'C' s
    g := t.g + countBase 'G' s
    u := t.u + countU s }

/-- Modelled from the spec: excised-base accounting — every RNA product
whose type is not mRNA has its nucleotide span removed from the
transcript accounting and counted into a monophosphate tally; a
transcript whose products are all mRNA excises nothing. -/
def excisionStep (genes : List (String × TranscribedGene))
    (t : BaseTally) (p : String) : BaseTally :=
  match lookupTable genes p with
  | none => t
  | some g =>
      if g.RNA_type = "mRNA" then t
      else t.addSeq g.nucleotide_sequence

/-- The excised-base tally of a transcription unit, accumulated over its
RNA products. -/
def excisedBases (genes : List (String × TranscribedGene))
    (d : TranscriptionData) : BaseTally :=
  d.RNA_products.foldl (excisionStep genes) ⟨0, 0, 0, 0⟩

/-- Excised monophosphates as reaction products (zero counts omitted). -/
def excisionEntries (genes : List (String × TranscribedGene))
    (d : TranscriptionData) : List (String × Coeff) :=
  let t := excisedBases genes d
  (if t.a = 0 then [] else [("amp_c", Coeff.const (t.a : ℚ))])
  ++ (if t.c = 0 then [] else [("cmp_c", Coeff.const (t.c : ℚ))])
  ++ (if t.g = 0 then [] else [("gmp_c", Coeff.const (t.g : ℚ))])
  ++ (if t.u = 0 then [] else [("ump_c", Coeff.const (t.u : ℚ))])

/-- The RNA products of a transcription unit, one copy each. -/
def productEntries (d : TranscriptionData) : List (String × Coeff) :=
  d.RNA_products.map (fun p => (p, Coeff.const 1))

/-- One step of the biomass-credit fold: a resolvable product contributes
one credit on the biomass pseudo-metabolite of its RNA type. -/
def biomassStep (C : Consts) (genes : List (String × TranscribedGene))
    (p : String) (acc : List (String × Coeff)) : List (String × Coeff) :=
  match lookupTable genes p with
  | none => acc
  | some g => (g.RNA_type ++ "_biomass", Coeff.const (rnaWeight C g)) :: acc

/-- Modelled from the spec: one biomass-constraint credit per RNA product,
on the pseudo-metabolite named after the RNA type of the product, equal
to the molecular weight of that product. -/
def biomassEntries (C : Consts) (genes : List (String × TranscribedGene))
    (d : TranscriptionData) : List (String × Coeff) :=
  d.RNA_products.foldr (biomassStep C genes) []

/-- All non-biomass participant contributions of a transcription reaction:
RNA-polymerase coupling, NTP consumption, subreaction terms, excised
bases and RNA products. -/
def nonBiomassEntries (C : Consts) (genes : List (String × TranscribedGene))
    (subs : List (String × SubreactionData)) (d : TranscriptionData) :
    List (String × Coeff) :=
  (d.RNA_polymerase, C.rnapCoupling d.nucleotide_sequence.length)
  :: ntpEntries d.nucleotide_sequence
  ++ subreactionEntries subs d.subreactions
  ++ excisionEntries genes d
  ++ productEntries d

/-- Modelled from the spec: the full participant contribution list of a
TranscriptionReaction assembled by `update`. -/
def transcriptionEntries (C : Consts) (genes : List (String × TranscribedGene))
    (subs : List (String × SubreactionData)) (d : TranscriptionData) :
    List (String × Coeff) :=
  nonBiomassEntries C genes subs d ++ biomassEntries C genes d

/-- The compiled participant map of a TranscriptionReaction. -/
def transcriptionParticipants (C : Consts)
    (genes : List (String × TranscribedGene))
    (subs : List (String × SubreactionData)) (d : TranscriptionData) :
    List (String × Coeff) :=
  buildMap (transcriptionEntries C genes subs d)

/-- Modelled from the spec: a TranscriptionReaction instance, referencing
exactly one TranscriptionData record and storing the compiled map. -/
structure TranscriptionReaction where
  id : String
  transcription_data : TranscriptionData
  participants : List (String × Coeff)

/-- Modelled from the spec: `update` on a TranscriptionReaction rereads
the linked TranscriptionData, the referenced metabolites and
SubreactionData and replaces the stored participant map. -/
def TranscriptionReaction.update (C : Consts)
    (genes : List (String × TranscribedGene))
    (subs : List (String × SubreactionData)) (r : TranscriptionReaction) :
    TranscriptionReaction :=
  { r with participants :=
      transcriptionParticipants C genes subs r.transcription_data }

/-- The RNA-type names of the model and their biomass pseudo-metabolites. -/
def rnaTypes : List String := ["mRNA", "tRNA", "rRNA", "ncRNA"]

/-- Total biomass credit of a compiled participant map: the sum of its
coefficients over the type-specific biomass constraint keys. -/
def biomassCreditTotal (parts : List (String × Coeff)) : Coeff :=
  (rnaTypes.map (fun t => getCoeff parts (t ++ "_biomass"))).sum

/-- Molecular weight contributed by one product id (zero when absent). -/
def weightOf (C : Consts) (genes : List (String × TranscribedGene))
    (p : String) : ℚ :=
  match lookupTable genes p with
  | none => 0
  | some g => rnaWeight C g

/-! ## Translation: sequence-derived computation -/

/-- Transcription of one base: DNA thymine becomes uracil. -/
def dnaToRna (c : Char) : Char := if c = 'T' then 'U' else c

/-- Split a sequence into codon-aligned triplets, in order (an incomplete
trailing fragment is dropped; valid coding sequences are multiples of 3). -/
def codons : List Char → List (List Char)
  | a :: b :: c :: rest => [a, b, c] :: codons rest
  | _ => []

/-- The RNA codon key of a triplet, e.g. AUG for the DNA triplet ATG. -/
def codonKey (cod : List Char) : String := String.mk (cod.map dnaToRna)

/-- Modelled from the spec: the standard genetic code table, keyed by RNA
codon, giving the abbreviated amino acid name used in subreaction keys;
the three stop codons map to a star. -/
def geneticCode : List (String × String) :=
  [("UUU", "phe"), ("UUC", "phe"), ("UUA", "leu"), ("UUG", "leu"),
   ("CUU", "leu"), ("CUC", "leu"), ("CUA", "leu"), ("CUG", "leu"),
   ("AUU", "ile"), ("AUC", "ile"), ("AUA", "ile"), ("AUG", "met"),
   ("GUU", "val"), ("GUC", "val"), ("GUA", "val"), ("GUG", "val"),
   ("UCU", "ser"), ("UCC", "ser"), ("UCA", "ser"), ("UCG", "ser"),
   ("CCU", "pro"), ("CCC", "pro"), ("CCA", "pro"), ("CCG", "pro"),
   ("ACU", "thr"), ("ACC", "thr"), ("ACA", "thr"), ("ACG", "thr"),
   ("GCU", "ala"), ("GCC", "ala"), ("GCA", "ala"), ("GCG", "ala"),
   ("UAU", "tyr"), ("UAC", "tyr"), ("UAA", "*"), ("UAG", "*"),
   ("CAU", "his"), ("CAC", "his"), ("CAA", "gln"), ("CAG", "gln"),
   ("AAU", "asn"), ("AAC", "asn"), ("AAA", "lys"), ("AAG", "lys"),
   ("GAU", "asp"), ("GAC", "asp"), ("GAA", "glu"), ("GAG", "glu"),
   ("UGU", "cys"), ("UGC", "cys"), ("UGA", "*"), ("UGG", "trp"),
   ("CGU", "arg"), ("CGC", "arg"), ("CGA", "arg"), ("CGG", "arg"),
   ("AGU", "ser"), ("AGC", "ser"), ("AGA", "arg"), ("AGG", "arg"),
   ("GGU", "gly"), ("GGC", "gly"), ("GGA", "gly"), ("GGG", "gly")]

/-- Amino acid encoded by a codon triplet, if any. -/
def codonToAA (cod : List Char) : Option String :=
  lookupTable geneticCode (codonKey cod)

/-- Whether a triplet is one of the three stop codons. -/
def isStopCodon (cod : List Char) : Bool :=
  match codonToAA cod with
  | some aa => aa = "*"
  | none => false

/-- Modelled from the spec: the organism-specific table of valid stop
codons and their codon-specific termination subreactions.  The UAA entry
is documented in the notebook; the UAG and UGA release-factor entries are
modelled from the spec only. -/
def terminationTable : List (String × String) :=
  [("UAA", "UAA_generic_RF_mediated_termination"),
   ("UAG", "UAG_PrfA_mediated_termination"),
   ("UGA", "UGA_PrfB_mediated_termination")]

/-- Modelled from the spec: a TranslationData record: the mRNA coding
sequence plus the ids of the mRNA, the protein and the terminating
release-factor enzyme.  Sequence-derived mappings are recomputed from the
sequence on every access. -/
structure TranslationData where
  id : String
  mRNA : String
  protein : String
  nucleotide_sequence : List Char
  term_enzyme : Option String
deriving DecidableEq, Repr

/-- Modelled from the spec: stop/termination subreaction selection —
the last codon is looked up in the stop-codon table; a hit contributes
exactly one count of the codon-specific termination subreaction and a
miss yields the empty set, permissively and without error. -/
def TranslationData.termination_subreactions
    (table : List (String × String)) (d : TranslationData) : List String :=
  match (codons d.nucleotide_sequence).getLast? with
  | none => []
  | some cod =>
      match lookupTable table (codonKey cod) with
      | none => []
      | some sub => [sub]

/-- The subreaction key of one amino-acid addition at a codon. -/
def additionKey (aa : String) (cod : List Char) : String :=
  aa ++ "_addition_at_" ++ codonKey cod

/-- One elongation step of the per-codon counter fold: a sense codon
increments its amino-acid-addition counter, anything else is skipped. -/
def additionStep (acc : List (String × ℤ)) (cod : List Char) :
    List (String × ℤ) :=
  match codonToAA cod with
  | none => acc
  | some aa => if aa = "*" then acc else addTo acc (additionKey aa cod) 1

/-- Modelled from the notebook record of elongation_subreactions: every
codon except the last contributes one count of its amino-acid-addition
subreaction (stop codons contribute none), and the entry of the first
codon is then decremented by one because the first residue is placed by
initiation, not elongation (the zero entry remains in the mapping). -/
def elongationAdditions (seq : List Char) : List (String × ℤ) :=
  let cods := codons seq
  let base := cods.dropLast.foldl additionStep []
  match cods.head? with
  | none => base
  | some first =>
      match codonToAA first with
      | none => base
      | some aa => if aa = "*" then base else addTo base (additionKey aa first) (-1)

/-- Modelled from the notebook record: each cumulative elongation counter
(elongation factor, GTP regeneration) equals the number of translated
residues (the trailing stop codon stripped) minus one for the initiated
residue. -/
def elongationCumulative (seq : List Char) : ℤ :=
  let cods := codons seq
  (cods.length : ℤ)
    - (match cods.getLast? with
       | none => 0
       | some cod => if isStopCodon cod then 1 else 0)
    - 1

/-- Modelled from the notebook record: the full codon-keyed elongation
subreaction mapping — the per-codon addition counters followed by the two
cumulative counters. -/
def TranslationData.elongation_subreactions (d : TranslationData) :
    List (String × ℤ) :=
  elongationAdditions d.nucleotide_sequence
  ++ [("FusA_mono_elongation", elongationCumulative d.nucleotide_sequence),
      ("Tuf_gtp_regeneration", elongationCumulative d.nucleotide_sequence)]

/-- Whether a codon encodes an amino acid (neither a stop nor invalid). -/
def isSenseCodon (cod : List Char) : Bool :=
  match codonToAA cod with
  | some aa => aa ≠ "*"
  | none => false

/-- Whether a product id resolves to a gene with one of the RNA
types of the model. -/
def typedInModel (genes : List (String × TranscribedGene)) (p : String) :
    Bool :=
  match typeOf genes p with
  | some t => rnaTypes.contains t
  | none => false

/-- Reclassify the RNA type of one metabolite of a gene table, leaving
every other attribute (in particular the sequence) unchanged. -/
def retype (genes : List (String × TranscribedGene)) (pid : String)
    (t : String) : List (String × TranscribedGene) :=
  genes.map (fun e => if e.1 = pid then (e.1, { e.2 with RNA_type := t }) else e)

/-! ## Concrete records used by witnesses and counterexamples -/

/-- A StoichiometricData with stoichiometry A: -1, B: 1 and bounds
(0, 1000), the scenario record of the spec. -/
def sdAB : StoichiometricData := ⟨"AB", [("A", -1), ("B", 1)], 0, 1000⟩

/-- Forward MetabolicReaction instance over `sdAB` with keff 65. -/
def fwdAB : MetabolicReaction := ⟨"AB_FWD_CPLX", sdAB, "CPLX", 65, false, [], 0, 0⟩

/-- Reverse MetabolicReaction instance over `sdAB` with keff 65. -/
def revAB : MetabolicReaction := ⟨"AB_REV_CPLX", sdAB, "CPLX", 65, true, [], 0, 0⟩

/-- A forward instance over `sdAB` with keff 1. -/
def rKeff1 : MetabolicReaction := ⟨"AB_FWD_K1", sdAB, "CPLX", 1, false, [], 0, 0⟩

/-- The same instance as `rKeff1` except for its own keff, now 2. -/
def rKeff2 : MetabolicReaction := ⟨"AB_FWD_K2", sdAB, "CPLX", 2, false, [], 0, 0⟩

/-- A second forward isozyme instance over `sdAB` (another complex). -/
def fwdAB2 : MetabolicReaction := ⟨"AB_FWD_CPLX2", sdAB, "CPLX2", 40, false, [], 0, 0⟩

/-- An instance agreeing with `fwdAB` on data, complex, keff and
direction, but holding stale compiled participants and bounds. -/
def fwdABStale : MetabolicReaction :=
  ⟨"AB_FWD_COPY", sdAB, "CPLX", 65, false, [("junk", (9, 9))], -3, 99⟩

/-- A concrete instantiation of the fixed biological constants. -/
def testConsts : Consts :=
  { rnapCoupling := fun len => (0, (len : ℚ)), wA := 1, wC := 2, wG := 3, wU := 4 }

/-- A gene table with two mRNA products of a transcription unit. -/
def genesMRNA : List (String × TranscribedGene) :=
  [("RNA_b1", ⟨"RNA_b1", "mRNA", ['A', 'T', 'G', 'C']⟩),
   ("RNA_b2", ⟨"RNA_b2", "mRNA", ['G', 'G', 'T']⟩)]

/-- The same gene table after reclassifying the second product as rRNA. -/
def genesRRNA : List (String × TranscribedGene) :=
  retype genesMRNA "RNA_b2" "rRNA"

/-- A TranscriptionData whose subreaction-count mapping is empty. -/
def tuData : TranscriptionData :=
  ⟨"TU_1", ['A', 'T', 'G', 'C', 'G', 'G', 'T'], ["RNA_b1", "RNA_b2"], "RNAP", true, []⟩

/-- A gene table whose single product is a stable RNA (rRNA). -/
def cexGenes : List (String × TranscribedGene) :=
  [("RNA_r1", ⟨"RNA_r1", "rRNA", ['A', 'C']⟩)]

/-- A TranscriptionData with an emptied subreaction mapping whose single
product is the stable RNA of `cexGenes`. -/
def cexTU : TranscriptionData :=
  ⟨"TU_cex", ['A', 'C'], ["RNA_r1"], "RNAP", false, []⟩

/-- A subreaction table for the transcription tests. -/
def subsTable : List (String × SubreactionData) :=
  [("Transcription_normal_rho_dependent",
    ⟨"Transcription_normal_rho_dependent", [("atp_c", -3), ("adp_c", 3)],
     some "GreA_mono", 65⟩)]

/-- TranslationData over the recorded sequence ATGAGCTTTTAA, whose last
codon is the valid stop codon UAA. -/
def tdStop : TranslationData :=
  ⟨"b2020", "RNA_b2020", "protein_b2020", "ATGAGCTTTTAA".data, some "PrfB_mono"⟩

/-- TranslationData over the recorded sequence ATGAGCTTTAAC, whose last
codon AAC is not a stop codon. -/
def tdNoStop : TranslationData :=
  ⟨"b2020", "RNA_b2020", "protein_b2020", "ATGAGCTTTAAC".data, some "PrfB_mono"⟩

/-! ## Lemmas on the participant-map machinery -/

theorem getCoeff_addTo {α : Type} [AddCommMonoid α]
    (l : List (String × α)) (k : String) (v : α) (k' : String) :
    getCoeff (addTo l k v) k' = getCoeff l k' + (if k = k' then v else 0) := by
  induction l with
  | nil =>
      simp only [addTo, getCoeff, lookupTable]
      split <;> simp_all
  | cons hd tl ih =>
      obtain ⟨k0, v0⟩ := hd
      by_cases h0 : k0 = k
      · subst h0
        simp only [addTo, if_pos rfl, getCoeff, lookupTable]
        by_cases h1 : k0 = k'
        · subst h1; simp
        · simp [h1]
      · simp only [addTo, if_neg h0, getCoeff, lookupTable]
        by_cases h1 : k0 = k'
        · subst h1
          have hkk : ¬ k = k0 := fun h => h0 h.symm
          simp [hkk]
        · simpa [h1, getCoeff] using ih

theorem getCoeff_foldl_addTo {α : Type} [AddCommMonoid α]
    (es : List (String × α)) (acc : List (String × α)) (k : String) :
    getCoeff (es.foldl (fun acc kv => addTo acc kv.1 kv.2) acc) k
      = getCoeff acc k + sumAt es k := by
  induction es generalizing acc with
  | nil => simp [sumAt]
  | cons hd tl ih =>
      obtain ⟨k0, v0⟩ := hd
      simp only [List.foldl_cons, sumAt]
      rw [ih, getCoeff_addTo, add_assoc]

theorem getCoeff_buildMap {α : Type} [AddCommMonoid α]
    (es : List (String × α)) (k : String) :
    getCoeff (buildMap es) k = sumAt es k := by
  have h := getCoeff_foldl_addTo es [] k
  simpa [buildMap, getCoeff, lookupTable] using h

theorem sumAt_append {α : Type} [AddCommMonoid α]
    (l1 l2 : List (String × α)) (k : String) :
    sumAt (l1 ++ l2) k = sumAt l1 k + sumAt l2 k := by
  induction l1 with
  | nil => simp [sumAt]
  | cons hd tl ih =>
      simp only [List.cons_append, sumAt, List.append_eq, ih, add_assoc]

theorem sumAt_eq_zero_of_not_mem {α : Type} [AddCommMonoid α]
    (es : List (String × α)) (k : String) (h : k ∉ keysOf es) :
    sumAt es k = 0 := by
  induction es with
  | nil => rfl
  | cons hd tl ih =>
      obtain ⟨k0, v0⟩ := hd
      simp only [keysOf, List.map_cons, List.mem_cons] at h
      push_neg at h
      simp only [sumAt, if_neg (fun he : k0 = k => h.1 he.symm)]
      rw [ih (by simpa [keysOf] using h.2), zero_add]

theorem mem_keysOf_addTo {α : Type} [Add α]
    (l : List (String × α)) (k : String) (v : α) (k' : String) :
    k' ∈ keysOf (addTo l k v) ↔ k' = k ∨ k' ∈ keysOf l := by
  induction l with
  | nil => simp [addTo, keysOf]
  | cons hd tl ih =>
      obtain ⟨k0, v0⟩ := hd
      by_cases h0 : k0 = k
      · subst h0
        have h1 : addTo ((k0, v0) :: tl) k0 v = (k0, v0 + v) :: tl := by
          simp [addTo]
        rw [h1]
        simp only [keysOf, List.map_cons, List.mem_cons]
        tauto
      · have h1 : addTo ((k0, v0) :: tl) k v = (k0, v0) :: addTo tl k v := by
          simp [addTo, h0]
        rw [h1]
        simp only [keysOf, List.map_cons, List.mem_cons] at ih ⊢
        tauto

theorem mem_keysOf_foldl_addTo {α : Type} [Add α]
    (es : List (String × α)) (acc : List (String × α)) (k : String) :
    k ∈ keysOf (es.foldl (fun acc kv => addTo acc kv.1 kv.2) acc) ↔
      k ∈ keysOf acc ∨ k ∈ keysOf es := by
  induction es generalizing acc with
  | nil => simp [keysOf]
  | cons hd tl ih =>
      obtain ⟨k0, v0⟩ := hd
      simp only [List.foldl_cons]
      rw [ih (addTo acc k0 v0), mem_keysOf_addTo]
      simp only [keysOf, List.map_cons, List.mem_cons]
      tauto

theorem mem_keysOf_buildMap {α : Type} [Add α]
    (es : List (String × α)) (k : String) :
    k ∈ keysOf (buildMap es) ↔ k ∈ keysOf es := by
  have h := mem_keysOf_foldl_addTo es [] k
  simpa [buildMap, keysOf] using h

theorem sumValues_addTo {α : Type} [AddCommMonoid α]
    (l : List (String × α)) (k : String) (v : α) :
    sumValues (addTo l k v) = sumValues l + v := by
  induction l with
  | nil => simp [addTo, sumValues]
  | cons hd tl ih =>
      obtain ⟨k0, v0⟩ := hd
      by_cases h0 : k0 = k
      · subst h0
        have h1 : addTo ((k0, v0) :: tl) k0 v = (k0, v0 + v) :: tl := by
          simp [addTo]
        rw [h1]
        simp only [sumValues, List.map_cons, List.sum_cons]
        abel
      · have h1 : addTo ((k0, v0) :: tl) k v = (k0, v0) :: addTo tl k v := by
          simp [addTo, h0]
        rw [h1]
        simp only [sumValues, List.map_cons, List.sum_cons] at ih ⊢
        rw [ih, ← add_assoc]

theorem keysOf_map_pair {β : Type} (l : List (String × β))
    (f : String × β → Coeff) :
    keysOf (l.map (fun p => (p.1, f p))) = keysOf l := by
  simp [keysOf, List.map_map, Function.comp]

/-! ## Claims about MetabolicReaction -/

/-- C1 (counterexample): the compiled participant map is not reproducible
from the linked ProcessData alone — two instances over the same
StoichiometricData with the same complex and direction but different
instance-owned keffs compile to different participant maps, exactly as
the notebook records when editing rxn.keff. -/
theorem reaction_not_determined_by_process_data_alone :
    rKeff1.stoichiometric_data = rKeff2.stoichiometric_data
    ∧ rKeff1.complex_data_id = rKeff2.complex_data_id
    ∧ rKeff1.reverse = rKeff2.reverse
    ∧ rKeff1.update.participants ≠ rKeff2.update.participants := by
  have e1 : rKeff1.update.participants
      = [("A", Coeff.const (-1)), ("B", Coeff.const 1), ("CPLX", dilutionCoeff 1)] := by
    simp [MetabolicReaction.update, metabolicEntries, buildMap, addTo,
      rKeff1, sdAB, directionSign, List.foldl]
  have e2 : rKeff2.update.participants
      = [("A", Coeff.const (-1)), ("B", Coeff.const 1), ("CPLX", dilutionCoeff 2)] := by
    simp [MetabolicReaction.update, metabolicEntries, buildMap, addTo,
      rKeff2, sdAB, directionSign, List.foldl]
  refine ⟨rfl, rfl, rfl, ?_⟩
  rw [e1, e2]
  simp [dilutionCoeff, Prod.ext_iff]

/-- C1 (amended): the compiled participant map and bounds are exactly
reproducible from the linked ProcessData together with the instance-owned
attributes (keff, catalyzing complex, direction); in particular a direct
edit of the compiled participants or bounds of a reaction is overwritten by
the next update. -/
theorem metabolic_update_recompiles_from_data :
    (∀ (r : MetabolicReaction) (p : List (String × Coeff)) (lb ub : ℚ),
      (r.setCompiled p lb ub).update = r.update)
    ∧ (∀ r₁ r₂ : MetabolicReaction,
        r₁.stoichiometric_data = r₂.stoichiometric_data →
        r₁.complex_data_id = r₂.complex_data_id →
        r₁.keff = r₂.keff →
        r₁.reverse = r₂.reverse →
        r₁.update.participants = r₂.update.participants
        ∧ r₁.update.lower_bound = r₂.update.lower_bound
        ∧ r₁.update.upper_bound = r₂.update.upper_bound) := by
  constructor
  · intro r p lb ub
    rfl
  · intro r₁ r₂ hd hc hk hv
    refine ⟨?_, ?_, ?_⟩ <;>
      simp [MetabolicReaction.update, metabolicEntries, clampedBounds,
        hd, hc, hk, hv]

/-- C1 (witness): the amended reproducibility at concrete instances. -/
theorem metabolic_update_recompiles_from_data_witness :
    (fwdAB.setCompiled [("X", Coeff.const 3)] (-5) 7).update = fwdAB.update
    ∧ fwdAB.update.participants = fwdABStale.update.participants :=
  ⟨metabolic_update_recompiles_from_data.1 fwdAB [("X", Coeff.const 3)] (-5) 7,
   (metabolic_update_recompiles_from_data.2 fwdAB fwdABStale rfl rfl rfl rfl).1⟩

/-- C2: the scenario record with stoichiometry A: -1, B: 1 and bounds
(0, 1000): after update, the forward instance carries A: -1, B: 1 plus
the mu/keff coupling on the complex with bounds (0, 1000), and the
reverse instance negates every coefficient and is clamped to bounds
(0, 0) since max(0, -lower_bound) = 0. -/
theorem scenario_forward_reverse_update :
    fwdAB.update.participants
      = [("A", Coeff.const (-1)), ("B", Coeff.const 1), ("CPLX", dilutionCoeff 65)]
    ∧ fwdAB.update.lower_bound = 0
    ∧ fwdAB.update.upper_bound = 1000
    ∧ revAB.update.participants
      = [("A", Coeff.const 1), ("B", Coeff.const (-1)), ("CPLX", dilutionCoeff 65)]
    ∧ revAB.update.lower_bound = 0
    ∧ revAB.update.upper_bound = 0 := by
  refine ⟨?_, ?_, ?_, ?_, ?_, ?_⟩ <;>
    simp [MetabolicReaction.update, metabolicEntries, buildMap, addTo,
      clampedBounds, fwdAB, revAB, sdAB, directionSign, List.foldl]

/-- C3: keff is owned by the reaction instance; changing it and updating
changes exactly the mu/keff coupling coefficient of the catalyzing
complex and no other participant. -/
theorem keff_is_instance_owned :
    ∀ (r : MetabolicReaction) (k : ℚ),
      r.complex_data_id ∉ keysOf r.stoichiometric_data.stoichiometry →
      (∀ m, m ≠ r.complex_data_id →
        getCoeff ((r.setKeff k).update.participants) m
          = getCoeff (r.update.participants) m)
      ∧ getCoeff ((r.setKeff k).update.participants) r.complex_data_id
          = dilutionCoeff k := by
  intro r k hc
  have hparts : ∀ r' : MetabolicReaction,
      r'.update.participants = buildMap (metabolicEntries r') := fun _ => rfl
  constructor
  · intro m hm
    rw [hparts, hparts, getCoeff_buildMap, getCoeff_buildMap]
    simp only [metabolicEntries, MetabolicReaction.setKeff]
    rw [sumAt_append, sumAt_append]
    have hcm : ¬ (r.complex_data_id = m) := fun h => hm h.symm
    simp [sumAt, hcm]
  · rw [hparts, getCoeff_buildMap]
    simp only [metabolicEntries, MetabolicReaction.setKeff]
    rw [sumAt_append]
    have h0 : sumAt (r.stoichiometric_data.stoichiometry.map
        (fun p => (p.1, Coeff.const (directionSign r.reverse * p.2))))
        r.complex_data_id = 0 := by
      apply sumAt_eq_zero_of_not_mem
      rw [keysOf_map_pair]
      exact hc
    rw [h0, zero_add]
    simp [sumAt]

/-- C3 (witness): changing keff from 1 to 2 on a concrete instance sets
the coupling coefficient of the complex to mu/(2 * 3600). -/
theorem keff_is_instance_owned_witness :
    (rKeff1.complex_data_id ∉ keysOf rKeff1.stoichiometric_data.stoichiometry)
    ∧ getCoeff ((rKeff1.setKeff 2).update.participants) rKeff1.complex_data_id
        = dilutionCoeff 2 :=
  ⟨by decide, (keff_is_instance_owned rKeff1 2 (by decide)).2⟩

/-- C8: after editing the lower bound of a shared StoichiometricData,
updating every reaction of the dependent set in one pass gives every
instance — forward, reverse and any isozyme copy — exactly the bounds
determined by the edited record and the instance direction. -/
theorem shared_bound_edit_one_pass :
    ∀ (d : StoichiometricData) (x : ℚ) (rs : List MetabolicReaction),
      (∀ r ∈ rs, r.stoichiometric_data = d.setLowerBound x) →
      (updateAll rs).map (fun r => (r.lower_bound, r.upper_bound))
        = rs.map (fun r => clampedBounds (d.setLowerBound x) r.reverse) := by
  intro d x rs h
  simp only [updateAll, List.map_map]
  apply List.map_congr_left
  intro r hr
  simp [Function.comp, MetabolicReaction.update, h r hr]

/-- C8 (witness): one pass over a concrete parent set of three instances
(two forward isozymes and one reverse instance). -/
theorem shared_bound_edit_one_pass_witness :
    (∀ r ∈ ([fwdAB, revAB, fwdAB2] : List MetabolicReaction),
      r.stoichiometric_data = sdAB.setLowerBound 0)
    ∧ (updateAll [fwdAB, revAB, fwdAB2]).map
        (fun r => (r.lower_bound, r.upper_bound))
      = [fwdAB, revAB, fwdAB2].map
          (fun r => clampedBounds (sdAB.setLowerBound 0) r.reverse) :=
  ⟨by decide, shared_bound_edit_one_pass sdAB 0 [fwdAB, revAB, fwdAB2] (by decide)⟩

/-- C9: update is idempotent — a second update of an unmodified reaction
(metabolic or transcription) recompiles the identical participant map,
since update is a pure recompilation from the linked data. -/
theorem update_idempotent :
    ∀ (r : MetabolicReaction) (C : Consts)
      (genes : List (String × TranscribedGene))
      (subs : List (String × SubreactionData)) (tr : TranscriptionReaction),
      r.update.update = r.update
      ∧ TranscriptionReaction.update C genes subs
          (TranscriptionReaction.update C genes subs tr)
        = TranscriptionReaction.update C genes subs tr := by
  intro r C genes subs tr
  exact ⟨rfl, rfl⟩

/-! ## Claims about translation sequence computation -/

theorem sumValues_additionStep_fold :
    ∀ (l : List (List Char)) (acc : List (String × ℤ)),
      (∀ c ∈ l, isSenseCodon c = true) →
      sumValues (l.foldl additionStep acc) = sumValues acc + l.length := by
  intro l
  induction l with
  | nil => intro acc _; simp
  | cons c t ih =>
      intro acc h
      have hc : isSenseCodon c = true := h c (List.mem_cons_self c t)
      have ht : ∀ c' ∈ t, isSenseCodon c' = true :=
        fun c' hc' => h c' (List.mem_cons_of_mem c hc')
      rcases h1 : codonToAA c with _ | aa
      · rw [isSenseCodon, h1] at hc
        simp at hc
      · have haa : ¬ (aa = "*") := by
          rw [isSenseCodon, h1] at hc
          simpa using hc
        have hstep : additionStep acc c = addTo acc (additionKey aa c) 1 := by
          simp [additionStep, h1, haa]
        simp only [List.foldl_cons, hstep]
        rw [ih _ ht, sumValues_addTo]
        simp only [List.length_cons]
        push_cast
        omega

/-- C6: termination-subreaction selection is a permissive table lookup on
the last codon: a valid stop codon yields exactly one count of its
codon-specific termination subreaction and anything else yields the empty
set without error; in particular the recorded sequence ATGAGCTTTTAA
yields exactly UAA_generic_RF_mediated_termination and ATGAGCTTTAAC
yields the empty set. -/
theorem termination_subreaction_selection :
    (∀ (table : List (String × String)) (d : TranslationData) (cod : List Char),
      (codons d.nucleotide_sequence).getLast? = some cod →
      (∀ sub, lookupTable table (codonKey cod) = some sub →
        d.termination_subreactions table = [sub])
      ∧ (lookupTable table (codonKey cod) = none →
        d.termination_subreactions table = []))
    ∧ tdStop.termination_subreactions terminationTable
        = ["UAA_generic_RF_mediated_termination"]
    ∧ tdNoStop.termination_subreactions terminationTable = [] := by
  refine ⟨?_, by decide, by decide⟩
  intro table d cod hlast
  constructor
  · intro sub hsub
    simp [TranslationData.termination_subreactions, hlast, hsub]
  · intro hnone
    simp [TranslationData.termination_subreactions, hlast, hnone]

/-- C6 (witness): the general lookup rule applied to the recorded
stop-terminated sequence. -/
theorem termination_subreaction_selection_witness :
    ((codons tdStop.nucleotide_sequence).getLast? = some ['T', 'A', 'A'])
    ∧ tdStop.termination_subreactions terminationTable
        = ["UAA_generic_RF_mediated_termination"] :=
  ⟨by decide,
   (termination_subreaction_selection.1 terminationTable tdStop
      (['T', 'A', 'A']) (by decide)).1
     ("UAA_generic_RF_mediated_termination") (by decide)⟩

/-- C7 (counterexample): on the recorded truncated sequence ATGAGCTTTAAC
the cumulative elongation counters equal 3 while the per-codon
amino-acid-addition counts sum to 2 (the non-stop last codon is excluded
from the additions but still counted as a residue), so a cumulative
counter does not equal the sum of the per-codon addition counts. -/
theorem elongation_cumulative_counterexample :
    tdNoStop.elongation_subreactions
      = [("met_addition_at_AUG", 0), ("ser_addition_at_AGC", 1),
         ("phe_addition_at_UUU", 1), ("FusA_mono_elongation", 3),
         ("Tuf_gtp_regeneration", 3)]
    ∧ sumValues (elongationAdditions tdNoStop.nucleotide_sequence) = 2
    ∧ ¬ (elongationCumulative tdNoStop.nucleotide_sequence
          = sumValues (elongationAdditions tdNoStop.nucleotide_sequence)) := by
  decide

/-- C7 (amended): every codon consumed during elongation — each codon
except the last — increments its amino-acid-addition counter, with the
entry of the first codon decremented for initiation, and the cumulative
counters count one per translated residue beyond the first; when the
sequence ends in a valid stop codon (and has no internal stop), each
cumulative counter equals the sum of all per-codon addition counts. -/
theorem elongation_cumulative_eq_sum :
    ∀ (seq : List Char) (cod : List Char),
      (codons seq).getLast? = some cod →
      isStopCodon cod = true →
      2 ≤ (codons seq).length →
      (∀ c ∈ (codons seq).dropLast, isSenseCodon c = true) →
      elongationCumulative seq
        = sumValues (elongationAdditions seq) := by
  intro seq cod hlast hstop hlen hsense
  obtain ⟨c1, c2, t, hcs⟩ : ∃ c1 c2 t, codons seq = c1 :: c2 :: t := by
    rcases h : codons seq with _ | ⟨c1, _ | ⟨c2, t⟩⟩
    · rw [h] at hlen; simp at hlen
    · rw [h] at hlen; simp at hlen
    · exact ⟨c1, c2, t, rfl⟩
  rw [hcs] at hlast hsense
  have hc1 : isSenseCodon c1 = true := by
    apply hsense
    rw [List.dropLast_cons₂]
    exact List.mem_cons_self c1 _
  rcases h1 : codonToAA c1 with _ | aa1
  · rw [isSenseCodon, h1] at hc1
    simp at hc1
  · have haa1 : ¬ (aa1 = "*") := by
      rw [isSenseCodon, h1] at hc1
      simpa using hc1
    have hsum : sumValues ((c1 :: c2 :: t).dropLast.foldl additionStep [])
        = (((c1 :: c2 :: t).dropLast.length : ℕ) : ℤ) := by
      have := sumValues_additionStep_fold ((c1 :: c2 :: t).dropLast) [] hsense
      simpa [sumValues] using this
    have hadds : elongationAdditions seq
        = addTo ((c1 :: c2 :: t).dropLast.foldl additionStep [])
            (additionKey aa1 c1) (-1) := by
      simp only [elongationAdditions, hcs, List.head?_cons, h1]
      rw [if_neg haa1]
    rw [hadds, sumValues_addTo, hsum]
    simp only [elongationCumulative, hcs]
    rw [hlast]
    simp only [hstop, if_true]
    simp only [List.length_cons, List.length_dropLast]
    push_cast
    omega

/-! ## Lemmas on transcription assembly -/

theorem typeOf_some_mRNA {genes : List (String × TranscribedGene)}
    {p : String} (h : typeOf genes p = some "mRNA") :
    ∃ g, lookupTable genes p = some g ∧ g.RNA_type = "mRNA" := by
  rcases hl : lookupTable genes p with _ | g
  · rw [typeOf, hl] at h
    simp at h
  · rw [typeOf, hl] at h
    exact ⟨g, rfl, by simpa using h⟩

theorem excisionFold_all_mRNA (genes : List (String × TranscribedGene)) :
    ∀ (products : List String) (acc : BaseTally),
      (∀ p ∈ products, typeOf genes p = some "mRNA") →
      products.foldl (excisionStep genes) acc = acc := by
  intro products
  induction products with
  | nil => intro acc _; rfl
  | cons p t ih =>
      intro acc h
      obtain ⟨g, hg, hty⟩ := typeOf_some_mRNA (h p (List.mem_cons_self p t))
      have hstep : excisionStep genes acc p = acc := by
        simp [excisionStep, hg, hty]
      simp only [List.foldl_cons, hstep]
      exact ih acc (fun q hq => h q (List.mem_cons_of_mem p hq))

theorem excisedBases_all_mRNA (genes : List (String × TranscribedGene))
    (d : TranscriptionData)
    (h : ∀ p ∈ d.RNA_products, typeOf genes p = some "mRNA") :
    excisedBases genes d = ⟨0, 0, 0, 0⟩ :=
  excisionFold_all_mRNA genes d.RNA_products ⟨0, 0, 0, 0⟩ h

theorem excisionEntries_all_mRNA (genes : List (String × TranscribedGene))
    (d : TranscriptionData)
    (h : ∀ p ∈ d.RNA_products, typeOf genes p = some "mRNA") :
    excisionEntries genes d = [] := by
  simp [excisionEntries, excisedBases_all_mRNA genes d h]

theorem total_addSeq (t : BaseTally) (s : List Char) :
    (t.addSeq s).total
      = t.total + (countBase 'A' s + countBase 'C' s
          + countBase 'G' s + countU s) := by
  simp only [BaseTally.addSeq, BaseTally.total]
  omega

theorem countBases_eq_length :
    ∀ (s : List Char),
      (∀ ch ∈ s, ch ∈ (['A', 'C', 'G', 'T', 'U'] : List Char)) →
      countBase 'A' s + countBase 'C' s + countBase 'G' s + countU s
        = s.length := by
  intro s
  induction s with
  | nil => intro _; rfl
  | cons ch t ih =>
      intro h
      have hch := h ch (List.mem_cons_self ch t)
      have ht : ∀ c ∈ t, c ∈ (['A', 'C', 'G', 'T', 'U'] : List Char) :=
        fun c hc => h c (List.mem_cons_of_mem ch hc)
      have ihs := ih ht
      simp only [List.mem_cons, List.mem_singleton, List.not_mem_nil,
        or_false] at hch
      rcases hch with h5 | h5 | h5 | h5 | h5 <;> subst h5 <;>
        simp only [countBase, countU, List.count_cons, List.length_cons] <;>
        simp only [countBase, countU] at ihs <;>
        simp <;>
        omega

theorem excisionFold_single_stable
    (genes : List (String × TranscribedGene)) (g : TranscribedGene)
    (pid : String) :
    ∀ (products : List String) (acc : BaseTally),
      lookupTable genes pid = some g →
      g.RNA_type ≠ "mRNA" →
      products.count pid = 1 →
      (∀ q ∈ products, q ≠ pid → typeOf genes q = some "mRNA") →
      (products.foldl (excisionStep genes) acc).total
        = acc.total + (countBase 'A' g.nucleotide_sequence
            + countBase 'C' g.nucleotide_sequence
            + countBase 'G' g.nucleotide_sequence
            + countU g.nucleotide_sequence) := by
  intro products
  induction products with
  | nil =>
      intro acc _ _ hcount _
      simp at hcount
  | cons q t ih =>
      intro acc hg hty hcount hrest
      by_cases hq : q = pid
      · subst hq
        have hstep : excisionStep genes acc q = acc.addSeq g.nucleotide_sequence := by
          simp [excisionStep, hg, hty]
        have hzero : t.count q = 0 := by
          simp [List.count_cons] at hcount
          omega
        have htall : ∀ p ∈ t, typeOf genes p = some "mRNA" := by
          intro p hp
          have hne : p ≠ q := by
            intro he
            subst he
            rw [List.count_eq_zero] at hzero
            exact hzero hp
          exact hrest p (List.mem_cons_of_mem q hp) hne
        simp only [List.foldl_cons, hstep]
        rw [excisionFold_all_mRNA genes t _ htall]
        exact total_addSeq acc g.nucleotide_sequence
      · have hstep : excisionStep genes acc q = acc := by
          obtain ⟨g0, hg0, hty0⟩ :=
            typeOf_some_mRNA (hrest q (List.mem_cons_self q t) hq)
          simp [excisionStep, hg0, hty0]
        have hcount' : t.count pid = 1 := by
          simpa [List.count_cons, hq] using hcount
        simp only [List.foldl_cons, hstep]
        exact ih acc hg hty hcount'
          (fun p hp hne => hrest p (List.mem_cons_of_mem q hp) hne)

theorem mem_map_const {α β : Type} (l : List α) (c : β) (k : β) :
    k ∈ l.map (fun _ => c) ↔ l ≠ [] ∧ k = c := by
  cases l with
  | nil => simp
  | cons a t =>
      simp only [List.map_cons, List.mem_cons, ne_eq, reduceCtorEq,
        not_false_iff, true_and]
      constructor
      · rintro (h | h)
        · exact h
        · rcases (List.mem_map.mp h) with ⟨x, _, hx⟩
          exact hx.symm
      · intro h
        exact Or.inl h

theorem keysOf_biomass_all_mRNA (C : Consts)
    (genes : List (String × TranscribedGene)) :
    ∀ (products : List String),
      (∀ p ∈ products, typeOf genes p = some "mRNA") →
      keysOf (products.foldr (biomassStep C genes) [])
        = products.map (fun _ => "mRNA_biomass") := by
  intro products
  induction products with
  | nil => intro _; rfl
  | cons p t ih =>
      intro h
      obtain ⟨g, hg, hty⟩ := typeOf_some_mRNA (h p (List.mem_cons_self p t))
      simp only [List.foldr_cons, biomassStep, hg, hty, keysOf,
        List.map_cons]
      rw [show List.map Prod.fst (List.foldr (biomassStep C genes) [] t)
          = keysOf (List.foldr (biomassStep C genes) [] t) from rfl]
      rw [ih (fun q hq => h q (List.mem_cons_of_mem p hq))]
      congr 1

/-- C4 (counterexample): a TranscriptionData with an emptied
subreaction-count mapping whose product is a stable RNA compiles, after
update, to a participant map that also contains excised-monophosphate
terms (here amp_c), which are none of the four categories the claim
allows. -/
theorem emptied_subreactions_excision_term :
    cexTU.subreactions = []
    ∧ "amp_c" ∈ keysOf (transcriptionParticipants testConsts cexGenes [] cexTU)
    ∧ "amp_c" ≠ cexTU.RNA_polymerase
    ∧ "amp_c" ∉ (["atp_c", "ctp_c", "gtp_c", "utp_c"] : List String)
    ∧ "amp_c" ∉ cexTU.RNA_products
    ∧ (∀ t ∈ rnaTypes, "amp_c" ≠ t ++ "_biomass") := by
  refine ⟨rfl, ?_, by decide, by decide, by decide, by decide⟩
  have hk : keysOf (transcriptionParticipants testConsts cexGenes [] cexTU)
      = ["RNAP", "atp_c", "ctp_c", "gtp_c", "utp_c", "amp_c", "cmp_c",
         "RNA_r1", "rRNA_biomass"] := by
    simp [transcriptionParticipants, transcriptionEntries, nonBiomassEntries,
      ntpEntries, subreactionEntries, excisionEntries, excisedBases,
      excisionStep, BaseTally.addSeq, productEntries, biomassEntries,
      biomassStep, buildMap, addTo, keysOf, lookupTable, cexGenes, cexTU,
      countBase, countU, List.count_cons, List.foldl]
  rw [hk]
  decide

/-- C4 (amended): for a TranscriptionData whose subreaction-count mapping
has been emptied and all of whose RNA products are mRNA (so that no bases
are excised), the updated participant map contains exactly the
RNA-polymerase coupling, the raw NTP consumption, the RNA products and
the mRNA biomass credit — in particular no elongation-factor or
termination subreaction terms remain. -/
theorem emptied_subreactions_key_set :
    ∀ (C : Consts) (genes : List (String × TranscribedGene))
      (subs : List (String × SubreactionData)) (d : TranscriptionData),
      d.subreactions = [] →
      d.RNA_products ≠ [] →
      (∀ p ∈ d.RNA_products, typeOf genes p = some "mRNA") →
      ∀ k, k ∈ keysOf (transcriptionParticipants C genes subs d)
        ↔ (k = d.RNA_polymerase
            ∨ k ∈ (["atp_c", "ctp_c", "gtp_c", "utp_c"] : List String)
            ∨ k ∈ d.RNA_products ∨ k = "mRNA_biomass") := by
  intro C genes subs d hsub hne hm k
  rw [transcriptionParticipants, mem_keysOf_buildMap]
  have h1 : keysOf (transcriptionEntries C genes subs d)
      = d.RNA_polymerase :: (["atp_c", "ctp_c", "gtp_c", "utp_c"] : List String)
        ++ d.RNA_products ++ d.RNA_products.map (fun _ => "mRNA_biomass") := by
    simp only [transcriptionEntries, nonBiomassEntries, hsub]
    rw [excisionEntries_all_mRNA genes d hm]
    simp only [subreactionEntries, List.map_nil, List.flatten_nil]
    rw [show biomassEntries C genes d
        = d.RNA_products.foldr (biomassStep C genes) [] from rfl]
    simp only [keysOf, List.map_append, List.map_cons, List.append_nil,
      List.map_nil, List.nil_append]
    rw [show List.map Prod.fst (List.foldr (biomassStep C genes) [] d.RNA_products)
        = keysOf (List.foldr (biomassStep C genes) [] d.RNA_products) from rfl]
    rw [keysOf_biomass_all_mRNA C genes d.RNA_products hm]
    simp only [ntpEntries, productEntries, List.map_map, List.map_cons,
      List.map_nil]
    rw [show (Prod.fst ∘ fun p : String => (p, Coeff.const 1)) = id from rfl,
      List.map_id]
  rw [h1]
  simp only [List.mem_cons, List.mem_append, mem_map_const, hne, ne_eq,
    not_false_iff, true_and]
  tauto

/-- C4 (witness): the key-set characterization at a concrete two-product
all-mRNA transcription unit, instantiated at the biomass key. -/
theorem emptied_subreactions_key_set_witness :
    tuData.subreactions = []
    ∧ tuData.RNA_products ≠ []
    ∧ (∀ p ∈ tuData.RNA_products, typeOf genesMRNA p = some "mRNA")
    ∧ ("mRNA_biomass"
        ∈ keysOf (transcriptionParticipants testConsts genesMRNA subsTable tuData)
      ↔ ("mRNA_biomass" = tuData.RNA_polymerase
          ∨ "mRNA_biomass" ∈ (["atp_c", "ctp_c", "gtp_c", "utp_c"] : List String)
          ∨ "mRNA_biomass" ∈ tuData.RNA_products
          ∨ "mRNA_biomass" = "mRNA_biomass")) :=
  ⟨rfl, by decide, by decide,
   emptied_subreactions_key_set testConsts genesMRNA subsTable tuData
     rfl (by decide) (by decide) ("mRNA_biomass")⟩

/-- C5: excision accounting — a transcription unit all of whose products
are mRNA excises nothing, and after reclassifying exactly one product to
a stable RNA type the excised-monophosphate tally sums to exactly the
span length of that product. -/
theorem excision_accounting :
    (∀ (genes : List (String × TranscribedGene)) (d : TranscriptionData),
      (∀ p ∈ d.RNA_products, typeOf genes p = some "mRNA") →
      excisedBases genes d = ⟨0, 0, 0, 0⟩ ∧ excisionEntries genes d = [])
    ∧ (∀ (genes : List (String × TranscribedGene)) (d : TranscriptionData)
        (pid : String) (g : TranscribedGene),
        lookupTable genes pid = some g →
        d.RNA_products.count pid = 1 →
        (∀ q ∈ d.RNA_products, q ≠ pid → typeOf genes q = some "mRNA") →
        g.RNA_type ∈ (["rRNA", "tRNA", "ncRNA"] : List String) →
        (∀ ch ∈ g.nucleotide_sequence,
          ch ∈ (['A', 'C', 'G', 'T', 'U'] : List Char)) →
        (excisedBases genes d).total = g.nucleotide_sequence.length) := by
  constructor
  · intro genes d h
    exact ⟨excisedBases_all_mRNA genes d h, excisionEntries_all_mRNA genes d h⟩
  · intro genes d pid g hg hcount hrest hstable hseq
    have hty : g.RNA_type ≠ "mRNA" := by
      simp only [List.mem_cons, List.mem_singleton, List.not_mem_nil,
        or_false] at hstable
      rcases hstable with h5 | h5 | h5 <;> rw [h5] <;> decide
    have := excisionFold_single_stable genes g pid d.RNA_products
      ⟨0, 0, 0, 0⟩ hg hty hcount hrest
    rw [excisedBases, this]
    simp only [BaseTally.total]
    rw [countBases_eq_length g.nucleotide_sequence hseq]
    omega

/-- C5 (witness): reclassifying RNA_b2 to rRNA makes the excised tally
sum to the span length of RNA_b2 (3 bases). -/
theorem excision_accounting_witness :
    (lookupTable genesRRNA ("RNA_b2")
        = some ⟨"RNA_b2", "rRNA", ['G', 'G', 'T']⟩)
    ∧ tuData.RNA_products.count ("RNA_b2") = 1
    ∧ (excisedBases genesRRNA tuData).total
        = (['G', 'G', 'T'] : List Char).length :=
  ⟨by decide, by decide,
   excision_accounting.2 genesRRNA tuData ("RNA_b2")
     ⟨"RNA_b2", "rRNA", ['G', 'G', 'T']⟩
     (by decide) (by decide) (by decide) (by decide) (by decide)⟩

/-! ## Lemmas and claim on the biomass credit -/

theorem Coeff.const_add (a b : ℚ) :
    Coeff.const (a + b) = Coeff.const a + Coeff.const b := by
  simp [Coeff.const, Prod.mk_add_mk]

theorem typedInModel_some {genes : List (String × TranscribedGene)}
    {p : String} (h : typedInModel genes p = true) :
    ∃ g, lookupTable genes p = some g ∧ g.RNA_type ∈ rnaTypes := by
  rcases hl : lookupTable genes p with _ | g
  · rw [typedInModel, typeOf, hl] at h
    simp at h
  · rw [typedInModel, typeOf, hl] at h
    simp at h
    refine ⟨g, rfl, ?_⟩
    simpa using h

theorem sum_ite_biomass (tp : String) (x : Coeff) (htp : tp ∈ rnaTypes) :
    (rnaTypes.map
      (fun t => if tp ++ "_biomass" = t ++ "_biomass" then x else 0)).sum
      = x := by
  simp only [rnaTypes, List.mem_cons, List.mem_singleton,
    List.not_mem_nil, or_false] at htp
  rcases htp with h | h | h | h <;> subst h <;>
    simp +decide [rnaTypes]

theorem sumAt_biomass_fold (C : Consts)
    (genes : List (String × TranscribedGene)) :
    ∀ (products : List String),
      (∀ p ∈ products, typedInModel genes p = true) →
      (rnaTypes.map (fun t =>
          sumAt (products.foldr (biomassStep C genes) []) (t ++ "_biomass"))).sum
        = Coeff.const ((products.map (weightOf C genes)).sum) := by
  intro products
  induction products with
  | nil =>
      intro _
      simp [rnaTypes, sumAt, Coeff.const, Prod.mk_zero_zero]
  | cons p t ih =>
      intro h
      obtain ⟨g, hg, htp⟩ := typedInModel_some (h p (List.mem_cons_self p t))
      have hstep : (p :: t).foldr (biomassStep C genes) []
          = (g.RNA_type ++ "_biomass", Coeff.const (rnaWeight C g))
            :: t.foldr (biomassStep C genes) [] := by
        simp [biomassStep, hg]
      rw [hstep]
      simp only [sumAt]
      rw [List.sum_map_add]
      rw [sum_ite_biomass g.RNA_type (Coeff.const (rnaWeight C g)) htp]
      rw [ih (fun q hq => h q (List.mem_cons_of_mem p hq))]
      simp only [List.map_cons, List.sum_cons]
      rw [Coeff.const_add]
      congr 1
      simp [weightOf, hg]

theorem biomass_total_eq (C : Consts)
    (genes : List (String × TranscribedGene))
    (subs : List (String × SubreactionData)) (d : TranscriptionData)
    (hm : ∀ p ∈ d.RNA_products, typedInModel genes p = true)
    (hnb : ∀ t ∈ rnaTypes,
      (t ++ "_biomass") ∉ keysOf (nonBiomassEntries C genes subs d)) :
    biomassCreditTotal (transcriptionParticipants C genes subs d)
      = Coeff.const ((d.RNA_products.map (weightOf C genes)).sum) := by
  have hpt : ∀ t ∈ rnaTypes,
      getCoeff (transcriptionParticipants C genes subs d) (t ++ "_biomass")
        = sumAt (biomassEntries C genes d) (t ++ "_biomass") := by
    intro t ht
    rw [transcriptionParticipants, getCoeff_buildMap, transcriptionEntries,
      sumAt_append, sumAt_eq_zero_of_not_mem _ _ (hnb t ht), zero_add]
  rw [biomassCreditTotal, List.map_congr_left hpt]
  rw [show biomassEntries C genes d
      = d.RNA_products.foldr (biomassStep C genes) [] from rfl]
  exact sumAt_biomass_fold C genes d.RNA_products hm

theorem lookupTable_retype (genes : List (String × TranscribedGene))
    (pid ty p : String) :
    lookupTable (retype genes pid ty) p
      = if p = pid
        then (lookupTable genes p).map (fun g => { g with RNA_type := ty })
        else lookupTable genes p := by
  induction genes with
  | nil =>
      simp only [retype, List.map_nil, lookupTable]
      split <;> rfl
  | cons e t ih =>
      obtain ⟨k0, g0⟩ := e
      by_cases hkp : k0 = pid
      · have hh : retype ((k0, g0) :: t) pid ty
            = (k0, { g0 with RNA_type := ty }) :: retype t pid ty := by
          simp [retype, hkp]
        rw [hh]
        by_cases hk1 : k0 = p
        · subst hk1
          simp [lookupTable, hkp]
        · have hl1 : lookupTable ((k0, { g0 with RNA_type := ty })
              :: retype t pid ty) p = lookupTable (retype t pid ty) p := by
            simp [lookupTable, hk1]
          have hl2 : lookupTable ((k0, g0) :: t) p = lookupTable t p := by
            simp [lookupTable, hk1]
          rw [hl1, hl2, ih]
      · have hh : retype ((k0, g0) :: t) pid ty
            = (k0, g0) :: retype t pid ty := by
          simp [retype, hkp]
        rw [hh]
        by_cases hk1 : k0 = p
        · subst hk1
          have hp : ¬ (k0 = pid) := hkp
          simp [lookupTable, hp]
        · have hl1 : lookupTable ((k0, g0) :: retype t pid ty) p
              = lookupTable (retype t pid ty) p := by
            simp [lookupTable, hk1]
          have hl2 : lookupTable ((k0, g0) :: t) p = lookupTable t p := by
            simp [lookupTable, hk1]
          rw [hl1, hl2, ih]

theorem weightOf_retype (C : Consts)
    (genes : List (String × TranscribedGene)) (pid ty p : String) :
    weightOf C (retype genes pid ty) p = weightOf C genes p := by
  rw [weightOf, weightOf, lookupTable_retype]
  by_cases h : p = pid
  · rw [if_pos h]
    rcases lookupTable genes p with _ | g <;> simp [rnaWeight]
  · rw [if_neg h]

/-- C10: the total biomass credit of a compiled transcription reaction —
the sum of its coefficients over the type-specific biomass constraint
pseudo-metabolites — equals the sum of the molecular weights of its RNA
products, and is therefore unchanged when the RNA type of a product is
reclassified and the reaction updated: reclassification only reallocates
the credit between the type-specific biomass constraints. -/
theorem biomass_credit_conservation :
    (∀ (C : Consts) (genes : List (String × TranscribedGene))
      (subs : List (String × SubreactionData)) (d : TranscriptionData),
      (∀ p ∈ d.RNA_products, typedInModel genes p = true) →
      (∀ t ∈ rnaTypes,
        (t ++ "_biomass") ∉ keysOf (nonBiomassEntries C genes subs d)) →
      biomassCreditTotal (transcriptionParticipants C genes subs d)
        = Coeff.const ((d.RNA_products.map (weightOf C genes)).sum))
    ∧ (∀ (C : Consts) (genes : List (String × TranscribedGene))
        (subs : List (String × SubreactionData)) (d : TranscriptionData)
        (pid ty : String),
        (∀ p ∈ d.RNA_products, typedInModel genes p = true) →
        (∀ t ∈ rnaTypes,
          (t ++ "_biomass") ∉ keysOf (nonBiomassEntries C genes subs d)) →
        (∀ p ∈ d.RNA_products, typedInModel (retype genes pid ty) p = true) →
        (∀ t ∈ rnaTypes, (t ++ "_biomass")
          ∉ keysOf (nonBiomassEntries C (retype genes pid ty) subs d)) →
        biomassCreditTotal
            (transcriptionParticipants C (retype genes pid ty) subs d)
          = biomassCreditTotal (transcriptionParticipants C genes subs d)) := by
  constructor
  · intro C genes subs d hm hnb
    exact biomass_total_eq C genes subs d hm hnb
  · intro C genes subs d pid ty hm hnb hm2 hnb2
    rw [biomass_total_eq C (retype genes pid ty) subs d hm2 hnb2,
      biomass_total_eq C genes subs d hm hnb]
    rw [show weightOf C (retype genes pid ty) = weightOf C genes from
      funext (weightOf_retype C genes pid ty)]

/-- C10 (witness): reclassifying RNA_b2 from mRNA to rRNA leaves the
total biomass credit of the concrete transcription unit unchanged. -/
theorem biomass_credit_conservation_witness :
    (∀ p ∈ tuData.RNA_products, typedInModel genesMRNA p = true)
    ∧ (∀ t ∈ rnaTypes, (t ++ "_biomass")
        ∉ keysOf (nonBiomassEntries testConsts genesMRNA subsTable tuData))
    ∧ biomassCreditTotal
        (transcriptionParticipants testConsts (retype genesMRNA "RNA_b2" "rRNA")
          subsTable tuData)
      = biomassCreditTotal
          (transcriptionParticipants testConsts genesMRNA subsTable tuData) :=
  ⟨by decide, by decide,
   biomass_credit_conservation.2 testConsts genesMRNA subsTable tuData
     ("RNA_b2") ("rRNA") (by decide) (by decide) (by decide) (by decide)⟩

/-- C7 (witness): the cumulative counters agree with the per-codon sum on
the recorded stop-terminated sequence ATGAGCTTTTAA. -/
theorem elongation_cumulative_eq_sum_witness :
    ((codons tdStop.nucleotide_sequence).getLast? = some ['T', 'A', 'A'])
    ∧ isStopCodon ['T', 'A', 'A'] = true
    ∧ 2 ≤ (codons tdStop.nucleotide_sequence).length
    ∧ (∀ c ∈ (codons tdStop.nucleotide_sequence).dropLast,
        isSenseCodon c = true)
    ∧ elongationCumulative tdStop.nucleotide_sequence
        = sumValues (elongationAdditions tdStop.nucleotide_sequence) :=
  ⟨by decide, by decide, by decide, by decide,
   elongation_cumulative_eq_sum tdStop.nucleotide_sequence ['T', 'A', 'A']
     (by decide) (by decide) (by decide) (by decide)⟩

end Cobrame
